import Mathlib

/-!
Verification of the diff-to-suggestion compiler of the `suggest-changes`
action. The definitions below are a shallow embedding of the current
TypeScript implementation (`index.js`, TS variant; the salvage submission
path of the historical orchestrator variant), with line changes as an
inductive type mirroring `parse-git-diff`'s `AnyLineChange` union
(`AddedLine`, `DeletedLine`, `UnchangedLine`, `MessageLine`). Network calls
are abstracted as explicit outcome parameters; everything else is
translated line by line.
-/

namespace SuggestChanges

/-- A line that exists only in the new file (`parse-git-diff` `AddedLine`):
`lineAfter` is its 1-based position in the new file. -/
structure AddedLine where
  content : String
  lineAfter : Nat
deriving DecidableEq, Repr

/-- A line that exists only in the old file (`parse-git-diff` `DeletedLine`):
`lineBefore` is its 1-based position in the old file. -/
structure DeletedLine where
  content : String
  lineBefore : Nat
deriving DecidableEq, Repr

/-- A context line present in both files (`parse-git-diff` `UnchangedLine`),
carrying both coordinates. -/
structure UnchangedLine where
  content : String
  lineBefore : Nat
  lineAfter : Nat
deriving DecidableEq, Repr

/-- `parse-git-diff`'s `AnyLineChange` union: an added, deleted or unchanged
line, or a `MessageLine` (the marker line `\ No newline at end of file`),
which carries no coordinates. -/
inductive Change where
  | addedLine (a : AddedLine)
  | deletedLine (d : DeletedLine)
  | unchangedLine (u : UnchangedLine)
  | messageLine (content : String)
deriving DecidableEq, Repr

/-- Type guard `isAddedLine` of `index.js`. On the typed union the
`typeof change.lineAfter === 'number'` field check always holds for an
`AddedLine`, so the guard is the variant test. -/
def isAddedLine : Change → Bool
  | .addedLine _ => true
  | _ => false

/-- Type guard `isDeletedLine` of `index.js`. -/
def isDeletedLine : Change → Bool
  | .deletedLine _ => true
  | _ => false

/-- Type guard `isUnchangedLine` of `index.js`. -/
def isUnchangedLine : Change → Bool
  | .unchangedLine _ => true
  | _ => false

/-- Result record of `filterChangesByType`. -/
structure FilteredChanges where
  addedLines : List AddedLine
  deletedLines : List DeletedLine
  unchangedLines : List UnchangedLine
deriving DecidableEq, Repr

/-- `filterChangesByType`: the three narrowing filters
`changes.filter(isAddedLine)` etc., which in TypeScript narrow the element
type, here rendered as `filterMap`s. -/
def filterChangesByType (changes : List Change) : FilteredChanges where
  addedLines := changes.filterMap fun c => match c with
    | .addedLine a => some a
    | _ => none
  deletedLines := changes.filterMap fun c => match c with
    | .deletedLine d => some d
    | _ => none
  unchangedLines := changes.filterMap fun c => match c with
    | .unchangedLine u => some u
    | _ => none

/-- `createSuggestion`: wrap content in a quadruple-backtick fenced
suggestion block. -/
def createSuggestion (content : String) : String :=
  "````suggestion\n" ++ content ++ "\n````"

/-- The inline coordinate selection of the grouping loop: `lineBefore` for
deletions, `lineAfter` for additions, `lineBefore` for unchanged lines, and
`null` (here `none`) for a change that cannot be positioned. -/
def changePositionLine : Change → Option Nat
  | .deletedLine d => some d.lineBefore
  | .addedLine a => some a.lineAfter
  | .unchangedLine u => some u.lineBefore
  | .messageLine _ => none

/-- `isUnchangedFollowedByAdded`: the group's first element is an unchanged
line and every later element is an added line (the blank-line-insertion
shape). An empty group does not match. -/
def isUnchangedFollowedByAdded (group : List Change) : Bool :=
  match group with
  | [] => false
  | first :: rest => isUnchangedLine first && rest.all isAddedLine

/-- `isContentMovement`: a deleted and an added line carry the same
content. -/
def isContentMovement (deleted : DeletedLine) (added : AddedLine) : Bool :=
  deleted.content == added.content

/-- `LineMovement`: the matched deleted/added pair of a detected
movement. -/
structure LineMovement where
  deleted : DeletedLine
  added : AddedLine
deriving DecidableEq, Repr

/-- `detectLineMovement`: exactly one deleted and exactly one added line
whose contents coincide. -/
def detectLineMovement (changes : List Change) : Option LineMovement :=
  let fc := filterChangesByType changes
  match fc.deletedLines, fc.addedLines with
  | [d], [a] => if isContentMovement d a then some ⟨d, a⟩ else none
  | _, _ => none

/-- The first deleted line of a group, `group.find(isDeletedLine)` with its
TypeScript narrowing. -/
def findDeleted : List Change → Option DeletedLine
  | [] => none
  | .deletedLine d :: _ => some d
  | _ :: rest => findDeleted rest

/-- `isLineMovement`: the upcoming change is an added line whose content
equals the content of the first deleted line found in the current group. -/
def isLineMovement (currentGroup : List Change) (nextChange : Change) : Bool :=
  match nextChange with
  | .addedLine a =>
    match findDeleted currentGroup with
    | some deletedLine => isContentMovement deletedLine a
    | none => false
  | _ => false

/-- `shouldSplitForBlankLineInsertion`: the current group matches
`[Unchanged, Added...]` and the next change is itself unchanged. -/
def shouldSplitForBlankLineInsertion (currentGroup : List Change)
    (nextChange : Change) : Bool :=
  isUnchangedFollowedByAdded currentGroup && isUnchangedLine nextChange

/-- `getLastChangedLineNumber`: position of the last added or deleted line
of the group (`findLast`), ignoring unchanged lines. -/
def getLastChangedLineNumber : List Change → Option Nat
  | [] => none
  | c :: rest =>
    match getLastChangedLineNumber rest with
    | some n => some n
    | none =>
      match c with
      | .deletedLine d => some d.lineBefore
      | .addedLine a => some a.lineAfter
      | _ => none

/-- The mutable state of the grouping loop: the groups already closed and
the group being built. -/
structure GroupState where
  groups : List (List Change)
  current : List Change
deriving DecidableEq, Repr

/-- One iteration of the loop body of `groupChangesForSuggestions`: first
the blank-line-insertion split, then the gap split (suppressed for a line
movement), otherwise append to the current group; a change with no
position is skipped. -/
def groupStep (s : GroupState) (change : Change) : GroupState :=
  if shouldSplitForBlankLineInsertion s.current change then
    { groups := s.groups ++ [s.current], current := [change] }
  else
    match changePositionLine change with
    | none => s
    | some lineNumber =>
      let lastChangedLineNumber := getLastChangedLineNumber s.current
      let appearsToBeLineMovement := isLineMovement s.current change
      match lastChangedLineNumber with
      | some last =>
        if !isUnchangedLine change && decide (lineNumber > last + 1)
            && !appearsToBeLineMovement then
          { groups := s.groups ++ [s.current], current := [change] }
        else
          { groups := s.groups, current := s.current ++ [change] }
      | none => { groups := s.groups, current := s.current ++ [change] }

/-- `groupChangesForSuggestions` (TS variant): run the loop over the
changes and flush the last group if it is non-empty. -/
def groupChangesForSuggestions (changes : List Change) : List (List Change) :=
  let s := changes.foldl groupStep ⟨[], []⟩
  if s.current.isEmpty then s.groups else s.groups ++ [s.current]

/-- `SuggestionBody`: replacement text plus the count of anchored lines it
replaces. -/
structure SuggestionBody where
  body : String
  lineCount : Nat
deriving DecidableEq, Repr

/-- `getContextLineComesFirst`: the first unchanged line's new-file
coordinate is strictly below the first added line's; `false` when either
list is empty. -/
def getContextLineComesFirst (unchangedLines : List UnchangedLine)
    (addedLines : List AddedLine) : Bool :=
  match unchangedLines.head?, addedLines.head? with
  | some firstUnchanged, some firstAdded =>
    decide (firstUnchanged.lineAfter < firstAdded.lineAfter)
  | _, _ => false

/-- `getAnchorForAdditions`: anchor a pure addition at the context line
when it precedes the additions, else one line above it, floored at 1. -/
def getAnchorForAdditions (firstUnchangedLine : UnchangedLine)
    (unchangedLines : List UnchangedLine) (addedLines : List AddedLine) : Nat :=
  if getContextLineComesFirst unchangedLines addedLines then
    firstUnchangedLine.lineBefore
  else
    max 1 (firstUnchangedLine.lineBefore - 1)

/-- The movement branch of `generateSuggestionBody`, factored out: when a
single-line movement is detected and an unchanged line precedes the
deletion, build the context/blank/moved-content suggestion; otherwise
`none` and the main function falls through to the remaining branches,
exactly as the inline `if (movement) { if (unchangedBeforeDeletion) ... }`
does. -/
def movementSuggestion (changes : List Change) : Option SuggestionBody :=
  let fc := filterChangesByType changes
  match detectLineMovement changes with
  | none => none
  | some movement =>
    match fc.unchangedLines.find?
        (fun u => decide (u.lineBefore < movement.deleted.lineBefore)) with
    | none => none
    | some unchangedBeforeDeletion =>
      let blanksAfterDeletion := fc.unchangedLines.filter
        (fun u => decide (u.lineBefore > movement.deleted.lineBefore)
          && (u.content == ""))
      let suggestionLines :=
        [unchangedBeforeDeletion.content, "", movement.deleted.content]
          ++ (blanksAfterDeletion.drop 1).map (fun _ => "")
      some { body := createSuggestion (String.intercalate "\n" suggestionLines),
             lineCount := 1 + 1 + blanksAfterDeletion.length }

/-- `generateSuggestionBody` (TS variant): the movement branch first, then
pure deletions (empty suggestion), then pure additions (context line
prepended when it comes first), then the mixed replacement branch. -/
def generateSuggestionBody (changes : List Change) : Option SuggestionBody :=
  let fc := filterChangesByType changes
  match movementSuggestion changes with
  | some s => some s
  | none =>
    if fc.addedLines.length == 0 then
      if fc.deletedLines.length == 0 then none
      else some { body := createSuggestion "", lineCount := fc.deletedLines.length }
    else if fc.deletedLines.length == 0 then
      let contextLineComesFirst :=
        getContextLineComesFirst fc.unchangedLines fc.addedLines
      let suggestionLines :=
        match contextLineComesFirst, fc.unchangedLines.head? with
        | true, some firstUnchanged =>
          firstUnchanged.content :: fc.addedLines.map (·.content)
        | _, _ => fc.addedLines.map (·.content)
      some { body := createSuggestion (String.intercalate "\n" suggestionLines),
             lineCount := if contextLineComesFirst then 1 else fc.addedLines.length }
    else
      some { body := createSuggestion
               (String.intercalate "\n" (fc.addedLines.map (·.content))),
             lineCount := fc.deletedLines.length }

/-- `LinePosition`: inclusive start/end anchor lines in old-file
coordinates. -/
structure LinePosition where
  startLine : Nat
  endLine : Nat
deriving DecidableEq, Repr

/-- `calculateLinePosition` (TS variant): anchor a detected movement at the
unchanged line before the deletion; otherwise prefer the first deleted
line, then the pure-addition anchor, then the first unchanged line, then
the chunk's `fromFileRange.start`. -/
def calculateLinePosition (groupChanges : List Change) (lineCount : Nat)
    (fromFileRangeStart : Nat) : LinePosition :=
  let fc := filterChangesByType groupChanges
  let firstDeletedLine := findDeleted groupChanges
  let firstUnchangedLine := fc.unchangedLines.head?
  let movementAnchor : Option Nat :=
    match detectLineMovement groupChanges, firstUnchangedLine with
    | some movement, some fu =>
      if decide (fu.lineBefore < movement.deleted.lineBefore)
      then some fu.lineBefore else none
    | _, _ => none
  match movementAnchor with
  | some startLine => { startLine, endLine := startLine + lineCount - 1 }
  | none =>
    let startLine :=
      match firstDeletedLine with
      | some d => d.lineBefore
      | none =>
        match firstUnchangedLine with
        | some fu =>
          if fc.addedLines.length > 0 then
            getAnchorForAdditions fu fc.unchangedLines fc.addedLines
          else fu.lineBefore
        | none => fromFileRangeStart
    { startLine, endLine := startLine + lineCount - 1 }

/-- `ReviewCommentDraft`: the comment shape posted to the review API;
`start_line` and `start_side` are present only on multi-line comments. -/
structure ReviewCommentDraft where
  path : String
  body : String
  line : Nat
  start_line : Option Nat
  start_side : Option String
deriving DecidableEq, Repr

/-- Range data of a chunk header; only `start` is consumed by the
compiler. -/
structure FromFileRange where
  start : Nat
  lines : Nat
deriving DecidableEq, Repr

/-- `buildCommentDraft`: synthesize a body, resolve the anchor, and emit
the draft, spreading `start_line`/`start_side` in only for multi-line
suggestions. -/
def buildCommentDraft (path : String) (fromFileRange : FromFileRange)
    (group : List Change) : Option ReviewCommentDraft :=
  match generateSuggestionBody group with
  | none => none
  | some suggestion =>
    let pos := calculateLinePosition group suggestion.lineCount fromFileRange.start
    some { path
           body := suggestion.body
           line := pos.endLine
           start_line := if suggestion.lineCount > 1 then some pos.startLine else none
           start_side := if suggestion.lineCount > 1 then some "RIGHT" else none }

/-- The four fields `generateCommentKey` reads, shared by drafts and
previously-posted review comments; `line` can be absent on a stored
comment (e.g. an outdated file-level comment). -/
structure CommentRecord where
  path : String
  line : Option Nat
  start_line : Option Nat
  body : String
deriving DecidableEq, Repr

/-- Template-literal rendering of an optional number: the number, or the
empty string (`?? ''`). -/
def optionalNumberText : Option Nat → String
  | some n => toString n
  | none => ""

/-- `generateCommentKey`: `path:line:start_line:body`, absent coordinates
rendered as the empty string. -/
def generateCommentKey (comment : CommentRecord) : String :=
  comment.path ++ ":" ++ optionalNumberText comment.line ++ ":"
    ++ optionalNumberText comment.start_line ++ ":" ++ comment.body

/-- A draft viewed through the four key fields (TypeScript passes the draft
object itself to `generateCommentKey`; the embedding makes the field
restriction explicit). -/
def commentRecordOfDraft (draft : ReviewCommentDraft) : CommentRecord :=
  { path := draft.path, line := some draft.line,
    start_line := draft.start_line, body := draft.body }

/-- File kinds of `parse-git-diff`. -/
inductive FileKind where
  | changedFile
  | addedFile
  | deletedFile
  | renamedFile
deriving DecidableEq, Repr

/-- Chunk kinds of `parse-git-diff`; only regular `Chunk`s carry the line
changes the compiler consumes. -/
inductive ChunkKind where
  | chunk
  | combinedChunk
  | binaryFilesChunk
deriving DecidableEq, Repr

/-- One chunk of a parsed diff. -/
structure DiffChunk where
  kind : ChunkKind
  fromFileRange : FromFileRange
  changes : List Change
deriving DecidableEq, Repr

/-- One file entry of a parsed diff. -/
structure DiffFile where
  kind : FileKind
  path : String
  chunks : List DiffChunk
deriving DecidableEq, Repr

/-- A parsed git diff: the file list `parseGitDiff` returns. -/
structure ParsedDiff where
  files : List DiffFile
deriving DecidableEq, Repr

/-- `PartitionResult`: the two output arrays of `partition`. -/
structure PartitionResult (α : Type) where
  pass : List α
  fail : List α
deriving DecidableEq, Repr

/-- `partition`: a single forEach pushing each item onto `pass` or `fail`
according to the predicate. -/
def partition {α : Type} (items : List α) (predicate : α → Bool) :
    PartitionResult α :=
  items.foldl
    (fun acc item =>
      if predicate item then { acc with pass := acc.pass ++ [item] }
      else { acc with fail := acc.fail ++ [item] })
    ⟨[], []⟩

/-- The draft collection of `iterateSuggestionGroups` plus
`buildCommentDraft`: changed files, regular chunks, one draft attempt per
suggestion group. -/
def collectDrafts (parsedDiff : ParsedDiff) : List ReviewCommentDraft :=
  (parsedDiff.files.filter (fun f => f.kind == .changedFile)).flatMap fun file =>
    (file.chunks.filter (fun c => c.kind == .chunk)).flatMap fun chunk =>
      (groupChangesForSuggestions chunk.changes).filterMap fun group =>
        buildCommentDraft file.path chunk.fromFileRange group

/-- `generateReviewComments` (TS variant): collect the drafts, then keep
the ones whose comment key is not among the existing keys (the `pass` side
of `partition`). -/
def generateReviewComments (parsedDiff : ParsedDiff)
    (existingCommentKeys : List String) : List ReviewCommentDraft :=
  let drafts := collectDrafts parsedDiff
  (partition drafts (fun draft =>
    !(existingCommentKeys.contains
      (generateCommentKey (commentRecordOfDraft draft))))).pass

/-- `buildRightSideAnchors`: per changed or added file, the new-file line
numbers of its added and unchanged lines, as `Object.fromEntries` builds
them (association list; the JS object lookup is modelled by
`anchorsLookup`, where a later entry for the same path wins, as
`fromEntries` overwrites). The JS `Set` is modelled by the list of members
with `contains` as membership. -/
def buildRightSideAnchors (parsedDiff : ParsedDiff) :
    List (String × List Nat) :=
  (parsedDiff.files.filter
      (fun f => f.kind == .changedFile || f.kind == .addedFile)).map fun file =>
    (file.path,
      (file.chunks.filter (fun c => c.kind == .chunk)).flatMap fun chunk =>
        (chunk.changes.filter (fun c => isAddedLine c || isUnchangedLine c)).filterMap
          fun c => match c with
            | .addedLine a => some a.lineAfter
            | .unchangedLine u => some u.lineAfter
            | _ => none)

/-- Lookup in the anchors object: the value of the last entry with the
given key (JS `Object.fromEntries` keeps the last duplicate), `none` when
the path has no entry. -/
def anchorsLookup (entries : List (String × List Nat)) (key : String) :
    Option (List Nat) :=
  match entries with
  | [] => none
  | (k, v) :: rest =>
    match anchorsLookup rest key with
    | some r => some r
    | none => if k == key then some v else none

/-- `isValidSuggestion`: the draft's path has an anchor set, its `line` is
in the set, and its `start_line`, when present, is too. -/
def isValidSuggestion (comment : ReviewCommentDraft)
    (anchors : List (String × List Nat)) : Bool :=
  match anchorsLookup anchors comment.path with
  | none => false
  | some validLines =>
    if !validLines.contains comment.line then false
    else
      match comment.start_line with
      | some s => validLines.contains s
      | none => true

/-- `filterSuggestionsInPullRequestDiff`: the canonical PR diff arrives as
`none` when it could not be fetched or parsed (the code then returns the
comments unchanged), or as the parsed diff, in which case the comments are
partitioned by `isValidSuggestion` and only the valid ones are kept. -/
def filterSuggestionsInPullRequestDiff (canonicalDiff : Option ParsedDiff)
    (comments : List ReviewCommentDraft) : List ReviewCommentDraft :=
  match canonicalDiff with
  | none => comments
  | some parsedPullRequestDiff =>
    (partition comments (fun comment =>
      isValidSuggestion comment (buildRightSideAnchors parsedPullRequestDiff))).pass

/-- ASCII lowercasing of one character, the case folding the
case-insensitive regexes of the orchestrator need (their patterns are
ASCII). -/
def lowerChar (c : Char) : Char :=
  if c.toNat ≥ 65 && c.toNat ≤ 90 then Char.ofNat (c.toNat + 32) else c

/-- Whether the first list is a prefix of the second. -/
def startsWithChars : List Char → List Char → Bool
  | [], _ => true
  | _ :: _, [] => false
  | p :: ps, x :: xs => p == x && startsWithChars ps xs

/-- Whether the pattern occurs as a contiguous sublist. -/
def charsContain (pat : List Char) : List Char → Bool
  | [] => startsWithChars pat []
  | x :: xs => startsWithChars pat (x :: xs) || charsContain pat xs

/-- Case-insensitive substring test: the embedding of
`/pattern/i.test(message)` for the ASCII patterns the orchestrator
matches. -/
def messageContainsCI (message pattern : String) : Bool :=
  charsContain (pattern.toList.map lowerChar) (message.toList.map lowerChar)

/-- An error thrown by an API call: an Octokit `RequestError` with HTTP
status and message, or a value of any other class. -/
inductive ApiErr where
  | requestErr (status : Nat) (message : String)
  | otherErr (message : String)
deriving DecidableEq, Repr

/-- `isLineOutsideDiffError`: an Octokit `RequestError` with status 422
whose message matches `/line must be part of the diff/i`; any non-
`RequestError` value fails the `instanceof` test. -/
def isLineOutsideDiffError : ApiErr → Bool
  | .requestErr status message =>
    status == 422 && messageContainsCI message "line must be part of the diff"
  | .otherErr _ => false

/-- `isDuplicatePendingReviewError`: an Octokit `RequestError` with status
422 whose message matches `/only have one pending review/i`. -/
def isDuplicatePendingReviewError : ApiErr → Bool
  | .requestErr status message =>
    status == 422 && messageContainsCI message "only have one pending review"
  | .otherErr _ => false

/-- A review as `listReviews` returns it: id, state, and possibly missing
commit id. -/
structure Review where
  id : Nat
  state : String
  commitId : Option String
deriving DecidableEq, Repr

/-- What `ensurePendingReview` returns: the pending review's id, the commit
the salvage path anchors to, and whether an existing review was reused. -/
structure PendingReviewInfo where
  id : Nat
  commitId : String
  reused : Bool
deriving DecidableEq, Repr

/-- JS `pending.commit_id || commit_id`: the review's commit id unless it
is missing or the empty string (both falsy). -/
def resolveSalvageCommit (reviewCommit : Option String) (commit_id : String) :
    String :=
  match reviewCommit with
  | some s => if s == "" then commit_id else s
  | none => commit_id

/-- `ensurePendingReview` of the salvage orchestrator: create a pending
review (the body-only `createReview` call, whose outcome is the
`createPendingResult` parameter); on a duplicate-pending 422, reuse the
`PENDING` review found in `listReviews`; rethrow anything else, and
rethrow the duplicate error itself when no pending review turns up. -/
def ensurePendingReview (createPendingResult : Except ApiErr Nat)
    (existingReviews : List Review) (commit_id : String) :
    Except ApiErr PendingReviewInfo :=
  match createPendingResult with
  | .ok id => .ok { id, commitId := commit_id, reused := false }
  | .error err =>
    if !isDuplicatePendingReviewError err then .error err
    else
      match existingReviews.find? (fun r => r.state == "PENDING") with
      | none => .error err
      | some pending =>
        .ok { id := pending.id,
              commitId := resolveSalvageCommit pending.commitId commit_id,
              reused := true }

/-- The per-comment loop of the salvage path: each attachment attempt
(`createReviewComment`) either succeeds (`none` from the outcome oracle),
fails with the line-outside-diff 422 and is skipped, or fails with any
other error, which aborts the whole salvage and propagates. Returns
`(added, skipped)`. -/
def addCommentsIndividually (perComment : ReviewCommentDraft → Option ApiErr) :
    List ReviewCommentDraft → Except ApiErr (Nat × Nat)
  | [] => .ok (0, 0)
  | comment :: rest =>
    match perComment comment with
    | none =>
      match addCommentsIndividually perComment rest with
      | .ok (added, skipped) => .ok (added + 1, skipped)
      | .error e => .error e
    | some err =>
      if isLineOutsideDiffError err then
        match addCommentsIndividually perComment rest with
        | .ok (added, skipped) => .ok (added, skipped + 1)
        | .error e => .error e
      else .error err

/-- Whether a comment's individual attachment attempt either succeeds or
fails with the recoverable line-outside-diff error (the condition under
which the salvage loop never aborts). -/
def commentFailureIsAnchoring (perComment : ReviewCommentDraft → Option ApiErr)
    (comment : ReviewCommentDraft) : Bool :=
  match perComment comment with
  | some err => isLineOutsideDiffError err
  | none => true

/-- Aggregate result of one `createReview` run: the delivered comments and
whether a review was created, plus whether the pending review was deleted
and whether a salvage submit happened (observable side effects of the
salvage path). -/
structure ReviewOutcome where
  comments : List ReviewCommentDraft
  reviewCreated : Bool
  pendingDeleted : Bool
  submitted : Bool
deriving DecidableEq, Repr

/-- `createReview` of the salvage orchestrator (`part_003`), with each
network call abstracted as an outcome parameter: `batchResult` is the
whole-batch `createReview` call (`none` = accepted), `createPendingResult`
and `existingReviews` feed `ensurePendingReview`, and `perComment` is the
outcome of each individual `createReviewComment` call. A batch failure
that is neither the line-outside-diff 422 nor the duplicate-pending 422 is
rethrown; otherwise each comment is attached individually, and the pending
review is submitted when at least one attached, or deleted (with
`reviewCreated = false`) when none did. -/
def createReview (batchResult : Option ApiErr)
    (createPendingResult : Except ApiErr Nat) (existingReviews : List Review)
    (perComment : ReviewCommentDraft → Option ApiErr) (commit_id : String)
    (comments : List ReviewCommentDraft) : Except ApiErr ReviewOutcome :=
  match batchResult with
  | none =>
    .ok { comments, reviewCreated := true, pendingDeleted := false,
          submitted := false }
  | some err =>
    if !isLineOutsideDiffError err && !isDuplicatePendingReviewError err then
      .error err
    else
      match ensurePendingReview createPendingResult existingReviews commit_id with
      | .error e => .error e
      | .ok _pending =>
        match addCommentsIndividually perComment comments with
        | .error e => .error e
        | .ok (added, _skipped) =>
          if added == 0 then
            .ok { comments := [], reviewCreated := false,
                  pendingDeleted := true, submitted := false }
          else
            .ok { comments, reviewCreated := true, pendingDeleted := false,
                  submitted := true }

/-- Fuel-indexed chunking: take `batchSize` items per step; the fuel is the
input length, so the zero-fuel fallback is never reached for a positive
batch size. -/
def chunkListFuel (batchSize : Nat) : Nat → List ReviewCommentDraft →
    List (List ReviewCommentDraft)
  | _, [] => []
  | 0, l => [l]
  | fuel + 1, x :: xs =>
    (x :: xs).take batchSize :: chunkListFuel batchSize fuel ((x :: xs).drop batchSize)

/-- Modelled from the spec: `batchComments`, the Submission Orchestrator's
batching helper, whose implementation is not among the repository's staged
source files (only `test/rate-limit.test.js` imports it). The spec:
a Batch is "a contiguous slice of at most N (API-imposed, e.g. 100)
SuggestionDrafts submitted as one review; a diff with M drafts requires
ceil(M/N) batches", with batch size 100 by default. -/
def batchComments (comments : List ReviewCommentDraft)
    (batchSize : Nat := 100) : List (List ReviewCommentDraft) :=
  chunkListFuel batchSize comments.length comments

/-- Result of the batched submission run: the comment list of every
review-creation call made, one per batch in order; the delivered comments
aggregated across the successful batches; and whether any batch produced a
review. -/
structure BatchedRunResult where
  reviewCalls : List (List ReviewCommentDraft)
  comments : List ReviewCommentDraft
  reviewCreated : Bool
deriving DecidableEq, Repr

/-- Modelled from the spec: the per-batch submission loop of the batched
Submission Orchestrator (the `run` that uses `batchComments`, absent from
the staged sources; `test/rate-limit.test.js` exercises it). Each batch is
submitted as one independent review: exactly one review-creation call per
batch, carrying exactly that batch, in order; `submitBatch` is the
outcome of that one call (`true` = the batch produced a review). The loop
proceeds to the next batch whatever the previous batch's outcome, the
final result aggregates every successfully delivered comment across all
batches, and `reviewCreated` is true when any batch produced a review. -/
def submitBatchesFrom (submitBatch : List ReviewCommentDraft → Bool) :
    List (List ReviewCommentDraft) → BatchedRunResult
  | [] => { reviewCalls := [], comments := [], reviewCreated := false }
  | batch :: rest =>
    let created := submitBatch batch
    let restResult := submitBatchesFrom submitBatch rest
    { reviewCalls := batch :: restResult.reviewCalls,
      comments := (if created then batch else []) ++ restResult.comments,
      reviewCreated := created || restResult.reviewCreated }

/-- Modelled from the spec: the batched run splits the drafts with
`batchComments` and submits batch after batch through
`submitBatchesFrom`. -/
def runBatchedSubmission (submitBatch : List ReviewCommentDraft → Bool)
    (comments : List ReviewCommentDraft) : BatchedRunResult :=
  submitBatchesFrom submitBatch (batchComments comments)

/-- A change the grouping loop can position (added, deleted or unchanged);
a `messageLine` is skipped by the loop's `continue`. -/
def isPositionable (c : Change) : Bool :=
  (changePositionLine c).isSome

/-- The changes a loop state holds, in order: the closed groups followed by
the group being built. -/
def groupWeight (s : GroupState) : List Change :=
  s.groups.flatten ++ s.current

/-- Scenario C's suggestion group: three deleted lines at old-file lines
2-4 replaced by one added line. -/
def scenarioCGroup : List Change :=
  [.deletedLine ⟨"a", 2⟩, .deletedLine ⟨"b", 3⟩, .deletedLine ⟨"c", 4⟩,
   .addedLine ⟨"x", 2⟩]

/-- A minimal draft used to state the concrete batching facts. -/
def sampleDraft : ReviewCommentDraft :=
  { path := "file.md", body := "body", line := 1, start_line := none,
    start_side := none }

/-- Scenario A's parsed diff: one file, one chunk, `old line` at old-file
line 1 replaced by `new line`. -/
def sampleParsedDiff : ParsedDiff :=
  ⟨[{ kind := .changedFile, path := "t.md",
      chunks := [{ kind := .chunk, fromFileRange := ⟨1, 1⟩,
                   changes := [.deletedLine ⟨"old line", 1⟩,
                               .addedLine ⟨"new line", 1⟩] }] }]⟩

/-- The one draft the pipeline emits for `sampleParsedDiff`. -/
def sampleGeneratedDraft : ReviewCommentDraft :=
  { path := "t.md", body := createSuggestion "new line", line := 1,
    start_line := none, start_side := none }

end SuggestChanges

namespace SuggestChanges

theorem shouldSplit_current_ne (s : GroupState) (c : Change)
    (h : shouldSplitForBlankLineInsertion s.current c = true) :
    s.current ≠ [] := by
  intro hnil
  rw [shouldSplitForBlankLineInsertion, hnil] at h
  simp [isUnchangedFollowedByAdded] at h

theorem shouldSplit_unchanged (s : GroupState) (c : Change)
    (h : shouldSplitForBlankLineInsertion s.current c = true) :
    isUnchangedLine c = true := by
  rw [shouldSplitForBlankLineInsertion, Bool.and_eq_true] at h
  exact h.2

theorem getLastChangedLineNumber_nil_of :
    getLastChangedLineNumber [] = none := rfl

theorem groupStep_weight (s : GroupState) (c : Change) :
    groupWeight (groupStep s c)
      = groupWeight s ++ (if isPositionable c then [c] else []) := by
  unfold groupStep
  by_cases hsplit : shouldSplitForBlankLineInsertion s.current c = true
  · have hc := shouldSplit_unchanged s c hsplit
    cases c with
    | unchangedLine u =>
      simp [hsplit, groupWeight, isPositionable, changePositionLine]
    | addedLine a => simp [isUnchangedLine] at hc
    | deletedLine d => simp [isUnchangedLine] at hc
    | messageLine m => simp [isUnchangedLine] at hc
  · rw [if_neg hsplit]
    cases hpos : changePositionLine c with
    | none =>
      have : isPositionable c = false := by
        simp [isPositionable, hpos]
      simp [this]
    | some lineNumber =>
      have hp : isPositionable c = true := by
        simp [isPositionable, hpos]
      rw [hp]
      dsimp only
      cases hlast : getLastChangedLineNumber s.current with
      | none => simp [groupWeight, List.append_assoc]
      | some last =>
        dsimp only
        by_cases hgap : (!isUnchangedLine c && decide (lineNumber > last + 1)
            && !isLineMovement s.current c) = true
        · simp [hgap, groupWeight, List.append_assoc]
        · rw [if_neg hgap]
          simp [groupWeight, List.append_assoc]

theorem foldl_groupStep_weight (changes : List Change) :
    ∀ s : GroupState, groupWeight (changes.foldl groupStep s)
      = groupWeight s ++ changes.filter isPositionable := by
  induction changes with
  | nil => intro s; simp
  | cons c rest ih =>
    intro s
    rw [List.foldl_cons, ih, groupStep_weight, List.filter_cons]
    by_cases h : isPositionable c = true
    · simp [h, List.append_assoc]
    · rw [Bool.not_eq_true] at h
      simp [h]

theorem groupStep_groups_ne (s : GroupState) (c : Change)
    (h : ∀ g ∈ s.groups, g ≠ []) :
    ∀ g ∈ (groupStep s c).groups, g ≠ [] := by
  unfold groupStep
  by_cases hsplit : shouldSplitForBlankLineInsertion s.current c = true
  · have hne := shouldSplit_current_ne s c hsplit
    simp only [hsplit, if_true]
    intro g hg
    rcases List.mem_append.mp hg with hg' | hg'
    · exact h g hg'
    · rw [List.mem_singleton] at hg'
      exact hg' ▸ hne
  · rw [if_neg hsplit]
    cases hpos : changePositionLine c with
    | none => exact h
    | some lineNumber =>
      dsimp only
      cases hlast : getLastChangedLineNumber s.current with
      | none => exact h
      | some last =>
        dsimp only
        have hne : s.current ≠ [] := by
          intro hnil
          rw [hnil, getLastChangedLineNumber_nil_of] at hlast
          exact Option.noConfusion hlast
        by_cases hgap : (!isUnchangedLine c && decide (lineNumber > last + 1)
            && !isLineMovement s.current c) = true
        · simp only [hgap, if_true]
          intro g hg
          rcases List.mem_append.mp hg with hg' | hg'
          · exact h g hg'
          · rw [List.mem_singleton] at hg'
            exact hg' ▸ hne
        · rw [if_neg hgap]
          exact h

theorem foldl_groupStep_groups_ne (changes : List Change) :
    ∀ s : GroupState, (∀ g ∈ s.groups, g ≠ []) →
      ∀ g ∈ (changes.foldl groupStep s).groups, g ≠ [] := by
  induction changes with
  | nil => intro s h; exact h
  | cons c rest ih =>
    intro s h
    exact ih (groupStep s c) (groupStep_groups_ne s c h)

/-- C4 (amended): `groupChangesForSuggestions` returns non-empty groups
whose concatenation, in order, equals the subsequence of the input made of
its positionable changes (added, deleted and unchanged lines), each
appearing exactly once; a change with no position (the
`\ No newline at end of file` message line) is silently dropped. -/
theorem groupChangesForSuggestions_partition (changes : List Change) :
    (groupChangesForSuggestions changes).flatten
        = changes.filter isPositionable
      ∧ ∀ g ∈ groupChangesForSuggestions changes, g ≠ [] := by
  unfold groupChangesForSuggestions
  have hweight := foldl_groupStep_weight changes ⟨[], []⟩
  have hne := foldl_groupStep_groups_ne changes ⟨[], []⟩ (by intro g hg; cases hg)
  set s := changes.foldl groupStep ⟨[], []⟩ with hs
  have hw : s.groups.flatten ++ s.current = changes.filter isPositionable := by
    have := hweight
    rw [groupWeight, groupWeight] at this
    simpa using this
  constructor
  · by_cases hcur : s.current.isEmpty = true
    · rw [if_pos hcur]
      rw [List.isEmpty_iff] at hcur
      rw [hcur] at hw
      simpa using hw
    · rw [if_neg hcur]
      rw [List.flatten_append]
      simpa using hw
  · intro g hg
    by_cases hcur : s.current.isEmpty = true
    · rw [if_pos hcur] at hg
      exact hne g hg
    · rw [if_neg hcur] at hg
      rcases List.mem_append.mp hg with hg' | hg'
      · exact hne g hg'
      · rw [List.mem_singleton] at hg'
        rw [List.isEmpty_iff] at hcur
        exact hg' ▸ hcur

/-- C4 as frozen is false at a concrete input: on the one-element sequence
holding only the `\ No newline at end of file` message line, the groups'
concatenation is empty and does not equal the input sequence. -/
theorem groupChangesForSuggestions_messageLine_cex :
    (groupChangesForSuggestions
        [Change.messageLine "\\ No newline at end of file"]).flatten
      ≠ [Change.messageLine "\\ No newline at end of file"] := by
  decide

theorem findDeleted_eq_head (changes : List Change) :
    findDeleted changes = (filterChangesByType changes).deletedLines.head? := by
  induction changes with
  | nil => rfl
  | cons c rest ih =>
    cases c <;> simpa [findDeleted, filterChangesByType] using ih

theorem detectLineMovement_of_no_deleted (changes : List Change)
    (hdel : (filterChangesByType changes).deletedLines = []) :
    detectLineMovement changes = none := by
  unfold detectLineMovement
  dsimp only
  rw [hdel]

theorem movementSuggestion_of_no_deleted (changes : List Change)
    (hdel : (filterChangesByType changes).deletedLines = []) :
    movementSuggestion changes = none := by
  unfold movementSuggestion
  rw [detectLineMovement_of_no_deleted changes hdel]

/-- C6: while grouping, when the current group holds a deleted line (the
first one found) and the upcoming change is an added line with identical
content, the loop appends the addition to the current group instead of
gap-splitting, whatever the coordinates; in particular a deletion at
old-file line 5 re-added at new-file line 9 (a gap of more than 1) ends in
one group. -/
theorem movement_suppresses_gap_split (s : GroupState) (a : AddedLine)
    (d : DeletedLine) (hfind : findDeleted s.current = some d)
    (hcontent : d.content = a.content) :
    groupStep s (.addedLine a)
        = { groups := s.groups, current := s.current ++ [Change.addedLine a] }
      ∧ groupChangesForSuggestions
          [Change.deletedLine ⟨"X", 5⟩, Change.addedLine ⟨"X", 9⟩]
        = [[Change.deletedLine ⟨"X", 5⟩, Change.addedLine ⟨"X", 9⟩]] := by
  constructor
  · have hmov : isLineMovement s.current (.addedLine a) = true := by
      unfold isLineMovement
      rw [hfind]
      simp [isContentMovement, hcontent]
    have hsplit : shouldSplitForBlankLineInsertion s.current (.addedLine a)
        = false := by
      simp [shouldSplitForBlankLineInsertion, isUnchangedLine]
    unfold groupStep
    rw [hsplit]
    dsimp only [changePositionLine]
    cases hlast : getLastChangedLineNumber s.current with
    | none => rfl
    | some last => simp [hmov]
  · decide

/-- C6 witness: a concrete deletion of `X` at old-file line 5 with the
upcoming re-addition of `X` at new-file line 9 is appended to the current
group. -/
theorem movement_suppresses_gap_split_witness :
    groupStep ⟨[], [Change.deletedLine ⟨"X", 5⟩]⟩ (.addedLine ⟨"X", 9⟩)
        = { groups := [],
            current := [Change.deletedLine ⟨"X", 5⟩, Change.addedLine ⟨"X", 9⟩] }
      ∧ groupChangesForSuggestions
          [Change.deletedLine ⟨"X", 5⟩, Change.addedLine ⟨"X", 9⟩]
        = [[Change.deletedLine ⟨"X", 5⟩, Change.addedLine ⟨"X", 9⟩]] :=
  movement_suppresses_gap_split ⟨[], [Change.deletedLine ⟨"X", 5⟩]⟩
    ⟨"X", 9⟩ ⟨"X", 5⟩ rfl rfl

/-- C5: for a group whose single deleted and single added line share their
content, with an unchanged line before the deletion in old-file order (the
first such context line), the synthesized body is the context line, a
blank line, the moved content, and one fewer blank lines than the count of
blank unchanged lines after the deletion; the line count is
`1 + 1 + that count`. -/
theorem movement_synthesis (changes : List Change) (m : LineMovement)
    (ctx : UnchangedLine)
    (hmove : detectLineMovement changes = some m)
    (hctx : (filterChangesByType changes).unchangedLines.find?
        (fun u => decide (u.lineBefore < m.deleted.lineBefore)) = some ctx) :
    generateSuggestionBody changes = some
      { body := createSuggestion (String.intercalate "\n"
          ([ctx.content, "", m.deleted.content]
            ++ List.replicate
                (((filterChangesByType changes).unchangedLines.filter
                    (fun u => decide (u.lineBefore > m.deleted.lineBefore)
                      && (u.content == ""))).length - 1) "")),
        lineCount := 1 + 1
          + ((filterChangesByType changes).unchangedLines.filter
              (fun u => decide (u.lineBefore > m.deleted.lineBefore)
                && (u.content == ""))).length } := by
  have hms : movementSuggestion changes = some
      { body := createSuggestion (String.intercalate "\n"
          ([ctx.content, "", m.deleted.content]
            ++ List.replicate
                (((filterChangesByType changes).unchangedLines.filter
                    (fun u => decide (u.lineBefore > m.deleted.lineBefore)
                      && (u.content == ""))).length - 1) "")),
        lineCount := 1 + 1
          + ((filterChangesByType changes).unchangedLines.filter
              (fun u => decide (u.lineBefore > m.deleted.lineBefore)
                && (u.content == ""))).length } := by
    unfold movementSuggestion
    dsimp only
    rw [hmove]
    dsimp only
    rw [hctx]
    simp [List.map_const', List.length_drop]
  unfold generateSuggestionBody
  rw [hms]

/-- C5 witness: the moved heading example; with no blank unchanged lines
after the deletion, the body is context, blank, moved line, and the line
count is 2. -/
theorem movement_synthesis_witness :
    generateSuggestionBody
        [Change.unchangedLine ⟨"## H", 1, 1⟩, Change.deletedLine ⟨"X", 4⟩,
         Change.addedLine ⟨"X", 2⟩, Change.unchangedLine ⟨"", 3, 6⟩]
      = some { body := "````suggestion\n## H\n\nX\n````", lineCount := 2 } := by
  have h := movement_synthesis
    [Change.unchangedLine ⟨"## H", 1, 1⟩, Change.deletedLine ⟨"X", 4⟩,
     Change.addedLine ⟨"X", 2⟩, Change.unchangedLine ⟨"", 3, 6⟩]
    ⟨⟨"X", 4⟩, ⟨"X", 2⟩⟩ ⟨"## H", 1, 1⟩ (by decide) (by decide)
  simpa [createSuggestion] using h

/-- C7: for a group with at least one deleted and at least one added line
on which the movement branch does not fire, the body is the added lines'
content joined by newlines and the line count is the number of deleted
lines; Scenario C (3 deleted lines at old-file lines 2-4 replaced by one
added line) yields one draft with `start_line` 2 and `line` 4, the deleted
count. -/
theorem replacement_synthesis (changes : List Change)
    (hmove : movementSuggestion changes = none)
    (hdel : (filterChangesByType changes).deletedLines ≠ [])
    (hadd : (filterChangesByType changes).addedLines ≠ []) :
    generateSuggestionBody changes = some
        { body := createSuggestion (String.intercalate "\n"
            ((filterChangesByType changes).addedLines.map (·.content))),
          lineCount := (filterChangesByType changes).deletedLines.length }
      ∧ buildCommentDraft "file.md" ⟨2, 3⟩ scenarioCGroup = some
          { path := "file.md", body := createSuggestion "x", line := 4,
            start_line := some 2, start_side := some "RIGHT" } := by
  constructor
  · have ha : ((filterChangesByType changes).addedLines.length == 0) = false := by
      simp [List.length_eq_zero, hadd]
    have hd : ((filterChangesByType changes).deletedLines.length == 0) = false := by
      simp [List.length_eq_zero, hdel]
    unfold generateSuggestionBody
    rw [hmove]
    simp [ha, hd]
  · decide

/-- C7 witness: Scenario C's group, where the general equation gives body
`x` and line count 3, and the emitted draft spans old-file lines 2-4. -/
theorem replacement_synthesis_witness :
    generateSuggestionBody scenarioCGroup
        = some { body := "````suggestion\nx\n````", lineCount := 3 }
      ∧ buildCommentDraft "file.md" ⟨2, 3⟩ scenarioCGroup = some
          { path := "file.md", body := createSuggestion "x", line := 4,
            start_line := some 2, start_side := some "RIGHT" } := by
  have h := replacement_synthesis scenarioCGroup (by decide) (by decide) (by decide)
  exact ⟨by simpa [createSuggestion, scenarioCGroup, filterChangesByType] using h.1, h.2⟩

/-- C8 as frozen is false at a concrete input: for the pure-addition group
`[Added "x"@1, Added "y"@2, Unchanged "c"@1→3]` the context line follows
the additions in new-file order, so the synthesizer emits the added
content only (the context line is not the first line of the body) with
line count 2, not 1. -/
theorem pure_addition_context_cex :
    generateSuggestionBody
        [Change.addedLine ⟨"x", 1⟩, Change.addedLine ⟨"y", 2⟩,
         Change.unchangedLine ⟨"c", 1, 3⟩]
      = some { body := "````suggestion\nx\ny\n````", lineCount := 2 }
    ∧ (2 : Nat) ≠ 1 := by
  constructor
  · decide
  · decide

/-- C8 (amended): for a group with no deleted lines, at least one added
line and at least one unchanged line, the synthesizer compares new-file
coordinates; when the context line precedes the additions the body starts
with the context line and the line count is 1, otherwise the body is the
added content only and the line count is the number of added lines; the
resolved anchor is the context line's old-file position in the first case
and `max 1 (contextLine - 1)` in the second. -/
theorem pure_addition_synthesis (changes : List Change) (fu : UnchangedLine)
    (hdel : (filterChangesByType changes).deletedLines = [])
    (hadd : (filterChangesByType changes).addedLines ≠ [])
    (hfu : (filterChangesByType changes).unchangedLines.head? = some fu) :
    generateSuggestionBody changes = some
        (if getContextLineComesFirst (filterChangesByType changes).unchangedLines
            (filterChangesByType changes).addedLines then
          { body := createSuggestion (String.intercalate "\n"
              (fu.content :: (filterChangesByType changes).addedLines.map (·.content))),
            lineCount := 1 }
        else
          { body := createSuggestion (String.intercalate "\n"
              ((filterChangesByType changes).addedLines.map (·.content))),
            lineCount := (filterChangesByType changes).addedLines.length })
      ∧ ∀ lineCount fromFileRangeStart,
          (calculateLinePosition changes lineCount fromFileRangeStart).startLine
            = if getContextLineComesFirst
                  (filterChangesByType changes).unchangedLines
                  (filterChangesByType changes).addedLines then
                fu.lineBefore
              else max 1 (fu.lineBefore - 1) := by
  have ha : ((filterChangesByType changes).addedLines.length == 0) = false := by
    simp [List.length_eq_zero, hadd]
  have hd : ((filterChangesByType changes).deletedLines.length == 0) = true := by
    simp [hdel]
  have hfd : findDeleted changes = none := by
    rw [findDeleted_eq_head, hdel]
    rfl
  have hlen : (filterChangesByType changes).addedLines.length > 0 :=
    List.length_pos.mpr hadd
  constructor
  · unfold generateSuggestionBody
    rw [movementSuggestion_of_no_deleted changes hdel]
    dsimp only
    rw [ha, hd]
    by_cases hctx : getContextLineComesFirst
        (filterChangesByType changes).unchangedLines
        (filterChangesByType changes).addedLines = true
    · rw [hctx, hfu]
      rfl
    · rw [Bool.not_eq_true] at hctx
      rw [hctx]
      rfl
  · intro lineCount fromFileRangeStart
    unfold calculateLinePosition
    dsimp only
    rw [detectLineMovement_of_no_deleted changes hdel, hfd, hfu]
    dsimp only
    rw [if_pos hlen]
    unfold getAnchorForAdditions
    by_cases hctx : getContextLineComesFirst
        (filterChangesByType changes).unchangedLines
        (filterChangesByType changes).addedLines = true
    · rw [if_pos hctx]
    · rw [if_neg hctx]

/-- C8 witness: a context line at old-file line 1 preceding two additions;
the body starts with the context line, the line count is 1, and the anchor
is the context line's old-file position. -/
theorem pure_addition_synthesis_witness :
    generateSuggestionBody
        [Change.unchangedLine ⟨"c", 1, 1⟩, Change.addedLine ⟨"x", 2⟩,
         Change.addedLine ⟨"y", 3⟩]
      = some { body := "````suggestion\nc\nx\ny\n````", lineCount := 1 }
    ∧ (calculateLinePosition
          [Change.unchangedLine ⟨"c", 1, 1⟩, Change.addedLine ⟨"x", 2⟩,
           Change.addedLine ⟨"y", 3⟩] 1 1).startLine = 1 := by
  have h := pure_addition_synthesis
    [Change.unchangedLine ⟨"c", 1, 1⟩, Change.addedLine ⟨"x", 2⟩,
     Change.addedLine ⟨"y", 3⟩] ⟨"c", 1, 1⟩ (by decide) (by decide) (by decide)
  refine ⟨?_, ?_⟩
  · have h1 := h.1
    simpa [createSuggestion, filterChangesByType, getContextLineComesFirst] using h1
  · have h2 := h.2 1 1
    simpa [filterChangesByType, getContextLineComesFirst] using h2

theorem partition_foldl {α : Type} (predicate : α → Bool) (items : List α) :
    ∀ acc : PartitionResult α,
      (items.foldl (fun acc item =>
        if predicate item then { acc with pass := acc.pass ++ [item] }
        else { acc with fail := acc.fail ++ [item] }) acc).pass
        = acc.pass ++ items.filter predicate := by
  induction items with
  | nil => intro acc; simp
  | cons c rest ih =>
    intro acc
    rw [List.foldl_cons, ih, List.filter_cons]
    by_cases h : predicate c = true
    · simp [h]
    · rw [Bool.not_eq_true] at h
      simp [h]

theorem partition_pass {α : Type} (items : List α) (predicate : α → Bool) :
    (partition items predicate).pass = items.filter predicate := by
  unfold partition
  rw [partition_foldl]
  rfl

theorem generateReviewComments_no_keys (p : ParsedDiff) :
    generateReviewComments p [] = collectDrafts p := by
  unfold generateReviewComments
  dsimp only
  rw [partition_pass]
  exact List.filter_eq_self.mpr (fun a _ => rfl)

/-- C3: a draft and a previously-posted comment with equal path, line,
start_line and body get the same key from the one shared key function, and
running the pipeline again with the first run's emitted comments as the
existing comment keys yields zero new drafts. -/
theorem dedup_idempotence (p : ParsedDiff) (d : ReviewCommentDraft)
    (e : CommentRecord) (hpath : e.path = d.path)
    (hline : e.line = some d.line) (hstart : e.start_line = d.start_line)
    (hbody : e.body = d.body) :
    generateCommentKey e = generateCommentKey (commentRecordOfDraft d)
      ∧ generateReviewComments p
          ((generateReviewComments p []).map
            (fun x => generateCommentKey (commentRecordOfDraft x))) = [] := by
  constructor
  · unfold generateCommentKey commentRecordOfDraft
    rw [hpath, hline, hstart, hbody]
  · rw [generateReviewComments_no_keys]
    unfold generateReviewComments
    dsimp only
    rw [partition_pass]
    apply List.filter_eq_nil_iff.mpr
    intro a ha
    have hmem : generateCommentKey (commentRecordOfDraft a)
        ∈ (collectDrafts p).map
            (fun x => generateCommentKey (commentRecordOfDraft x)) :=
      List.mem_map_of_mem _ ha
    simp [hmem]

/-- C3 witness: Scenario A's diff; the second run with the first run's one
emitted comment key produces no draft. -/
theorem dedup_idempotence_witness :
    generateCommentKey
        ⟨"t.md", some 1, none, createSuggestion "new line"⟩
      = generateCommentKey (commentRecordOfDraft sampleGeneratedDraft)
    ∧ generateReviewComments sampleParsedDiff
        ((generateReviewComments sampleParsedDiff []).map
          (fun x => generateCommentKey (commentRecordOfDraft x))) = [] :=
  dedup_idempotence sampleParsedDiff sampleGeneratedDraft
    ⟨"t.md", some 1, none, createSuggestion "new line"⟩ rfl rfl rfl rfl

theorem calculateLinePosition_endLine (g : List Change) (lc st : Nat) :
    (calculateLinePosition g lc st).endLine
      = (calculateLinePosition g lc st).startLine + lc - 1 := by
  unfold calculateLinePosition
  dsimp only
  split <;> rfl

theorem movementSuggestion_lineCount (g : List Change) (ms : SuggestionBody)
    (h : movementSuggestion g = some ms) : 1 ≤ ms.lineCount := by
  unfold movementSuggestion at h
  dsimp only at h
  cases hdm : detectLineMovement g with
  | none => rw [hdm] at h; exact absurd h (by simp)
  | some m =>
    rw [hdm] at h
    dsimp only at h
    cases hf : (filterChangesByType g).unchangedLines.find?
        (fun u => decide (u.lineBefore < m.deleted.lineBefore)) with
    | none => rw [hf] at h; exact absurd h (by simp)
    | some ctx =>
      rw [hf] at h
      dsimp only at h
      injection h with h
      rw [← h]
      show 1 ≤ 1 + 1 + _
      omega

theorem generateSuggestionBody_lineCount_pos (g : List Change)
    (s : SuggestionBody) (h : generateSuggestionBody g = some s) :
    1 ≤ s.lineCount := by
  unfold generateSuggestionBody at h
  dsimp only at h
  cases hms : movementSuggestion g with
  | some ms =>
    rw [hms] at h
    injection h with h
    exact h ▸ movementSuggestion_lineCount g ms hms
  | none =>
    rw [hms] at h
    dsimp only at h
    cases hA : ((filterChangesByType g).addedLines.length == 0) with
    | true =>
      rw [hA] at h
      cases hD : ((filterChangesByType g).deletedLines.length == 0) with
      | true => rw [hD] at h; exact absurd h (by simp)
      | false =>
        rw [hD] at h
        injection h with h
        subst h
        have hne : (filterChangesByType g).deletedLines.length ≠ 0 := by
          intro h0
          rw [h0] at hD
          simp at hD
        simpa using Nat.one_le_iff_ne_zero.mpr hne
    | false =>
      rw [hA] at h
      cases hD : ((filterChangesByType g).deletedLines.length == 0) with
      | true =>
        rw [hD] at h
        injection h with h
        subst h
        have hne : (filterChangesByType g).addedLines.length ≠ 0 := by
          intro h0
          rw [h0] at hA
          simp at hA
        by_cases hc : getContextLineComesFirst
            (filterChangesByType g).unchangedLines
            (filterChangesByType g).addedLines = true
        · simp [hc]
        · rw [Bool.not_eq_true] at hc
          simpa [hc] using Nat.one_le_iff_ne_zero.mpr hne
      | false =>
        rw [hD] at h
        injection h with h
        subst h
        have hne : (filterChangesByType g).deletedLines.length ≠ 0 := by
          intro h0
          rw [h0] at hD
          simp at hD
        simpa using Nat.one_le_iff_ne_zero.mpr hne

theorem mem_collectDrafts (p : ParsedDiff) (d : ReviewCommentDraft)
    (hd : d ∈ collectDrafts p) :
    ∃ path fromFileRange group,
      buildCommentDraft path fromFileRange group = some d := by
  unfold collectDrafts at hd
  simp only [List.mem_flatMap, List.mem_filter, List.mem_filterMap] at hd
  obtain ⟨file, _, chunk, _, group, _, hbuild⟩ := hd
  exact ⟨file.path, chunk.fromFileRange, group, hbuild⟩

/-- C10: every draft `generateReviewComments` emits either comes from a
line count of 1 and carries neither `start_line` nor `start_side`, or
comes from a line count above 1 and carries
`start_line = line - (lineCount - 1)`, strictly below `line`, together
with `start_side = "RIGHT"`. -/
theorem draft_shape_invariant (p : ParsedDiff) (keys : List String)
    (d : ReviewCommentDraft) (hd : d ∈ generateReviewComments p keys) :
    ∃ path fromFileRange group s,
      buildCommentDraft path fromFileRange group = some d
      ∧ generateSuggestionBody group = some s
      ∧ ((s.lineCount = 1 ∧ d.start_line = none ∧ d.start_side = none)
        ∨ (1 < s.lineCount ∧ d.start_line = some (d.line - (s.lineCount - 1))
            ∧ d.line - (s.lineCount - 1) < d.line
            ∧ d.start_side = some "RIGHT")) := by
  have hd' : d ∈ collectDrafts p := by
    unfold generateReviewComments at hd
    dsimp only at hd
    rw [partition_pass] at hd
    exact List.mem_of_mem_filter hd
  obtain ⟨path, range, group, hbuild⟩ := mem_collectDrafts p d hd'
  have hbuild0 := hbuild
  unfold buildCommentDraft at hbuild
  cases hgen : generateSuggestionBody group with
  | none => rw [hgen] at hbuild; exact absurd hbuild (by simp)
  | some s =>
    rw [hgen] at hbuild
    dsimp only at hbuild
    have hpos1 := generateSuggestionBody_lineCount_pos group s hgen
    have hend := calculateLinePosition_endLine group s.lineCount range.start
    injection hbuild with hb
    refine ⟨path, range, group, s, hbuild0, hgen, ?_⟩
    rcases Nat.lt_or_ge 1 s.lineCount with hlt | hle
    · right
      rw [← hb]
      dsimp only
      rw [if_pos hlt, if_pos hlt]
      refine ⟨hlt, ?_, ?_, rfl⟩
      · rw [hend]
        congr 1
        omega
      · rw [hend]
        omega
    · left
      have h1 : s.lineCount = 1 := Nat.le_antisymm hle hpos1
      have hn : ¬ s.lineCount > 1 := by omega
      rw [← hb]
      dsimp only
      rw [if_neg hn, if_neg hn]
      exact ⟨h1, rfl, rfl⟩

/-- C10 witness: Scenario A's diff emits `sampleGeneratedDraft`, a
single-line draft with neither `start_line` nor `start_side`. -/
theorem draft_shape_invariant_witness :
    ∃ path fromFileRange group s,
      buildCommentDraft path fromFileRange group = some sampleGeneratedDraft
      ∧ generateSuggestionBody group = some s
      ∧ ((s.lineCount = 1 ∧ sampleGeneratedDraft.start_line = none
            ∧ sampleGeneratedDraft.start_side = none)
        ∨ (1 < s.lineCount
            ∧ sampleGeneratedDraft.start_line
                = some (sampleGeneratedDraft.line - (s.lineCount - 1))
            ∧ sampleGeneratedDraft.line - (s.lineCount - 1)
                < sampleGeneratedDraft.line
            ∧ sampleGeneratedDraft.start_side = some "RIGHT")) :=
  draft_shape_invariant sampleParsedDiff [] sampleGeneratedDraft (by decide)


/-- C9: a draft passes the validator iff its path has an anchor entry
built from the authoritative diff and its `line` and, when present, its
`start_line` are members of that entry's new-file line set; the kept
drafts are exactly the valid ones, unchanged and in order (dropped whole,
never shrunk); and when the authoritative diff could not be fetched or
parsed, every draft passes through unfiltered. -/
theorem validator_spec (pr : ParsedDiff) (comments : List ReviewCommentDraft)
    (c : ReviewCommentDraft) :
    filterSuggestionsInPullRequestDiff none comments = comments
    ∧ filterSuggestionsInPullRequestDiff (some pr) comments
        = comments.filter
            (fun d => isValidSuggestion d (buildRightSideAnchors pr))
    ∧ (isValidSuggestion c (buildRightSideAnchors pr) = true
        ↔ ∃ validLines,
            anchorsLookup (buildRightSideAnchors pr) c.path = some validLines
            ∧ validLines.contains c.line = true
            ∧ ∀ s, c.start_line = some s → validLines.contains s = true) := by
  refine ⟨rfl, ?_, ?_⟩
  · unfold filterSuggestionsInPullRequestDiff
    dsimp only
    rw [partition_pass]
  · unfold isValidSuggestion
    cases hl : anchorsLookup (buildRightSideAnchors pr) c.path with
    | none => simp
    | some validLines =>
      by_cases hc : validLines.contains c.line = true
      · cases hs : c.start_line with
        | none => simp [hc, hs]
        | some s0 => simp [hc, hs]
      · rw [Bool.not_eq_true] at hc
        have hcm : c.line ∉ validLines := by simpa using hc
        simp [hc, hcm]

theorem addCommentsIndividually_counts
    (perComment : ReviewCommentDraft → Option ApiErr)
    (comments : List ReviewCommentDraft)
    (h : ∀ c ∈ comments, commentFailureIsAnchoring perComment c = true) :
    addCommentsIndividually perComment comments
      = .ok (comments.countP (fun c => (perComment c).isNone),
             comments.countP (fun c => (perComment c).isSome)) := by
  induction comments with
  | nil => rfl
  | cons c rest ih =>
    have hc := h c (List.mem_cons_self c rest)
    have hrest : ∀ x ∈ rest, commentFailureIsAnchoring perComment x = true :=
      fun x hx => h x (List.mem_cons_of_mem c hx)
    unfold addCommentsIndividually
    cases hp : perComment c with
    | none =>
      dsimp only
      simp [ih hrest, List.countP_cons, hp]
    | some e =>
      have he : isLineOutsideDiffError e = true := by
        unfold commentFailureIsAnchoring at hc
        rw [hp] at hc
        exact hc
      dsimp only
      simp [he, ih hrest, List.countP_cons, hp]

/-- C2: a whole-batch failure with the 422 line-outside-diff or the 422
duplicate-pending-review error triggers the salvage path: a pending review
is opened (or, on the duplicate error, the listed `PENDING` review is
reused), each comment is attached individually, a comment failing again
with the line-outside-diff error is skipped without aborting, the pending
review is submitted when at least one comment attached, and when zero
attached the pending review is deleted and `reviewCreated` is false; a
batch error of any other class, and an individual-attachment error of any
other class, propagate unchanged. -/
theorem salvage_path (err : ApiErr) (createPendingResult : Except ApiErr Nat)
    (existingReviews : List Review)
    (perComment : ReviewCommentDraft → Option ApiErr) (commit_id : String)
    (comments : List ReviewCommentDraft) (pending : PendingReviewInfo)
    (hclass : isLineOutsideDiffError err = true
      ∨ isDuplicatePendingReviewError err = true)
    (hensure : ensurePendingReview createPendingResult existingReviews commit_id
      = .ok pending)
    (hskip : ∀ c ∈ comments, commentFailureIsAnchoring perComment c = true) :
    (createReview (some err) createPendingResult existingReviews perComment
        commit_id comments
      = if comments.any (fun c => (perComment c).isNone) then
          .ok { comments := comments, reviewCreated := true,
                pendingDeleted := false, submitted := true }
        else
          .ok { comments := [], reviewCreated := false, pendingDeleted := true,
                submitted := false })
    ∧ (∀ other, isLineOutsideDiffError other = false →
        isDuplicatePendingReviewError other = false →
        createReview (some other) createPendingResult existingReviews perComment
          commit_id comments = .error other)
    ∧ (∀ c rest fatal, perComment c = some fatal →
        isLineOutsideDiffError fatal = false →
        createReview (some err) createPendingResult existingReviews perComment
          commit_id (c :: rest) = .error fatal)
    ∧ (∀ newId, ensurePendingReview (.ok newId) existingReviews commit_id
        = .ok { id := newId, commitId := commit_id, reused := false })
    ∧ (∀ dupErr r, isDuplicatePendingReviewError dupErr = true →
        existingReviews.find? (fun rv => rv.state == "PENDING") = some r →
        ensurePendingReview (.error dupErr) existingReviews commit_id
          = .ok { id := r.id,
                  commitId := resolveSalvageCommit r.commitId commit_id,
                  reused := true }) := by
  have hcond : (!isLineOutsideDiffError err
      && !isDuplicatePendingReviewError err) = false := by
    rcases hclass with h | h <;> simp [h]
  refine ⟨?_, ?_, ?_, ?_, ?_⟩
  · unfold createReview
    dsimp only
    rw [hcond]
    simp only [Bool.false_eq_true, if_false]
    rw [hensure]
    dsimp only
    rw [addCommentsIndividually_counts perComment comments hskip]
    dsimp only
    by_cases hany : comments.any (fun c => (perComment c).isNone) = true
    · have hpos : 0 < comments.countP (fun c => (perComment c).isNone) := by
        rw [List.any_eq_true] at hany
        obtain ⟨x, hx, hpx⟩ := hany
        exact List.countP_pos_iff.mpr ⟨x, hx, hpx⟩
      have hbeq : (comments.countP (fun c => (perComment c).isNone) == 0)
          = false := by
        simp only [beq_eq_false_iff_ne, ne_eq]
        omega
      rw [hbeq, if_neg (by simp), if_pos hany]
    · have hzero : comments.countP (fun c => (perComment c).isNone) = 0 := by
        rw [Bool.not_eq_true, List.any_eq_false] at hany
        exact List.countP_eq_zero.mpr hany
      rw [Bool.not_eq_true] at hany
      rw [hzero]
      simp [hany]
  · intro other h1 h2
    unfold createReview
    simp [h1, h2]
  · intro c rest fatal hp hf
    unfold createReview
    dsimp only
    rw [hcond]
    simp only [Bool.false_eq_true, if_false]
    rw [hensure]
    dsimp only
    unfold addCommentsIndividually
    rw [hp]
    dsimp only
    rw [hf]
    rfl
  · intro newId
    rfl
  · intro dupErr r hdup hfind
    unfold ensurePendingReview
    dsimp only
    rw [hdup]
    simp only [Bool.not_true, Bool.false_eq_true, if_false]
    rw [hfind]

/-- C2 witness: a concrete 422 line-outside-diff batch failure over two
comments, of which the first attaches and the second fails again with the
anchoring error: the pending review is submitted and both this outcome and
the propagation equations hold at these inputs. -/
theorem salvage_path_witness :
    createReview
        (some (.requestErr 422 "Validation Failed: line must be part of the diff"))
        (.ok 7) []
        (fun c => if c.line == 2
          then some (.requestErr 422 "line must be part of the diff") else none)
        "abc"
        [{ path := "f", body := "b", line := 1, start_line := none,
           start_side := none },
         { path := "f", body := "b", line := 2, start_line := none,
           start_side := none }]
      = .ok { comments :=
                [{ path := "f", body := "b", line := 1, start_line := none,
                   start_side := none },
                 { path := "f", body := "b", line := 2, start_line := none,
                   start_side := none }],
              reviewCreated := true, pendingDeleted := false,
              submitted := true } := by
  have h := salvage_path
    (.requestErr 422 "Validation Failed: line must be part of the diff")
    (.ok 7) []
    (fun c => if c.line == 2
      then some (.requestErr 422 "line must be part of the diff") else none)
    "abc"
    [{ path := "f", body := "b", line := 1, start_line := none,
       start_side := none },
     { path := "f", body := "b", line := 2, start_line := none,
       start_side := none }]
    ⟨7, "abc", false⟩
    (Or.inl (by decide)) rfl (by decide)
  simpa using h.1

theorem chunkListFuel_flatten (n : Nat) (hn : 0 < n) :
    ∀ fuel l, l.length ≤ fuel → (chunkListFuel n fuel l).flatten = l := by
  intro fuel
  induction fuel with
  | zero =>
    intro l hl
    have hl0 : l = [] := List.eq_nil_of_length_eq_zero (Nat.le_zero.mp hl)
    subst hl0
    simp [chunkListFuel]
  | succ fuel ih =>
    intro l hl
    cases l with
    | nil => simp [chunkListFuel]
    | cons x xs =>
      simp only [chunkListFuel, List.flatten_cons]
      rw [ih _ (by rw [List.length_drop]; simp only [List.length_cons] at hl ⊢; omega)]
      exact List.take_append_drop n (x :: xs)

theorem chunkListFuel_sizes (n : Nat) (hn : 0 < n) :
    ∀ fuel l, l.length ≤ fuel →
      ∀ b ∈ chunkListFuel n fuel l, b ≠ [] ∧ b.length ≤ n := by
  intro fuel
  induction fuel with
  | zero =>
    intro l hl b hb
    have hl0 : l = [] := List.eq_nil_of_length_eq_zero (Nat.le_zero.mp hl)
    subst hl0
    simp [chunkListFuel] at hb
  | succ fuel ih =>
    intro l hl b hb
    cases l with
    | nil => simp [chunkListFuel] at hb
    | cons x xs =>
      simp only [chunkListFuel] at hb
      rcases List.mem_cons.mp hb with hb' | hb'
      · subst hb'
        constructor
        · have : n ≠ 0 := by omega
          cases n with
          | zero => omega
          | succ m => simp [List.take_succ_cons]
        · simpa using List.length_take_le n (x :: xs)
      · refine ih _ ?_ b hb'
        rw [List.length_drop]
        simp only [List.length_cons] at hl ⊢
        omega

theorem chunkListFuel_length (n : Nat) (hn : 0 < n) :
    ∀ fuel l, l.length ≤ fuel →
      (chunkListFuel n fuel l).length = (l.length + (n - 1)) / n := by
  intro fuel
  induction fuel with
  | zero =>
    intro l hl
    have hl0 : l = [] := List.eq_nil_of_length_eq_zero (Nat.le_zero.mp hl)
    subst hl0
    simp [chunkListFuel, Nat.div_eq_of_lt (by omega : n - 1 < n)]
  | succ fuel ih =>
    intro l hl
    cases l with
    | nil => simp [chunkListFuel, Nat.div_eq_of_lt (by omega : n - 1 < n)]
    | cons x xs =>
      simp only [chunkListFuel, List.length_cons]
      rw [ih _ (by rw [List.length_drop]; simp only [List.length_cons] at hl ⊢; omega)]
      rw [List.length_drop]
      simp only [List.length_cons]
      rcases Nat.lt_or_ge n (xs.length + 1) with hlt | hge
      · have e1 : xs.length + 1 - n + (n - 1) = xs.length := by omega
        have e2 : xs.length + 1 + (n - 1) = xs.length + n := by omega
        rw [e1, e2, Nat.add_div_right _ hn]
      · have e1 : xs.length + 1 - n = 0 := by omega
        rw [e1, Nat.zero_add]
        rw [Nat.div_eq_of_lt (by omega : n - 1 < n)]
        have h1 : (xs.length + 1 + (n - 1)) / n = 1 :=
          Nat.div_eq_of_lt_le (by omega) (by omega)
        rw [h1]

theorem submitBatchesFrom_spec (submitBatch : List ReviewCommentDraft → Bool)
    (batches : List (List ReviewCommentDraft)) :
    submitBatchesFrom submitBatch batches
      = { reviewCalls := batches,
          comments := (batches.filter submitBatch).flatten,
          reviewCreated := batches.any submitBatch } := by
  induction batches with
  | nil => rfl
  | cons batch rest ih =>
    unfold submitBatchesFrom
    rw [ih]
    by_cases hb : submitBatch batch = true
    · simp [hb, List.filter_cons, List.any_cons]
    · rw [Bool.not_eq_true] at hb
      simp [hb, List.filter_cons, List.any_cons]

set_option maxRecDepth 20000 in
/-- C1 (spec-modelled): a non-empty draft list of length M is split into
`ceil(M/100) = (M + 99) / 100` contiguous batches, each non-empty, of at
most 100 drafts, whose concatenation in order is the input; the batched
run makes exactly one review-creation call per batch, carrying exactly
that batch, in order, and each batch is an independent unit of success or
failure: whatever each call's outcome, every batch is still submitted, the
delivered comments are exactly the concatenation of the successful
batches, and a review is created exactly when some batch succeeds; 250
drafts yield exactly the batch sizes 100, 100, 50. -/
theorem batching_spec (comments : List ReviewCommentDraft)
    (hne : comments ≠ [])
    (submitBatch : List ReviewCommentDraft → Bool) :
    (batchComments comments).length = (comments.length + 99) / 100
    ∧ (∀ b ∈ batchComments comments, b ≠ [] ∧ b.length ≤ 100)
    ∧ (batchComments comments).flatten = comments
    ∧ (runBatchedSubmission submitBatch comments).reviewCalls
        = batchComments comments
    ∧ (runBatchedSubmission submitBatch comments).comments
        = ((batchComments comments).filter submitBatch).flatten
    ∧ (runBatchedSubmission submitBatch comments).reviewCreated
        = (batchComments comments).any submitBatch
    ∧ (batchComments (List.replicate 250 sampleDraft)).map List.length
        = [100, 100, 50] := by
  refine ⟨?_, ?_, ?_, ?_, ?_, ?_, ?_⟩
  · have h := chunkListFuel_length 100 (by omega) comments.length comments le_rfl
    simpa [batchComments] using h
  · intro b hb
    exact chunkListFuel_sizes 100 (by omega) comments.length comments le_rfl b hb
  · exact chunkListFuel_flatten 100 (by omega) comments.length comments le_rfl
  · unfold runBatchedSubmission
    rw [submitBatchesFrom_spec]
  · unfold runBatchedSubmission
    rw [submitBatchesFrom_spec]
  · unfold runBatchedSubmission
    rw [submitBatchesFrom_spec]
  · decide

set_option maxRecDepth 20000 in
/-- C1 witness: 250 drafts batch into sizes 100, 100, 50, and under an
outcome where only the two full batches succeed, the run still makes all
three review-creation calls (one per batch, in order), delivers the 200
comments of the successful batches, and reports a review created. -/
theorem batching_spec_witness :
    (runBatchedSubmission (fun b => b.length == 100)
        (List.replicate 250 sampleDraft)).reviewCalls
      = batchComments (List.replicate 250 sampleDraft)
    ∧ (runBatchedSubmission (fun b => b.length == 100)
        (List.replicate 250 sampleDraft)).comments
      = List.replicate 200 sampleDraft
    ∧ (runBatchedSubmission (fun b => b.length == 100)
        (List.replicate 250 sampleDraft)).reviewCreated = true
    ∧ (batchComments (List.replicate 250 sampleDraft)).map List.length
      = [100, 100, 50] := by
  have h := batching_spec (List.replicate 250 sampleDraft)
    (List.ne_nil_of_length_pos (by rw [List.length_replicate]; omega))
    (fun b => b.length == 100)
  refine ⟨h.2.2.2.1, ?_, ?_, h.2.2.2.2.2.2⟩
  · rw [h.2.2.2.2.1]
    decide
  · rw [h.2.2.2.2.2.1]
    decide

end SuggestChanges
